import Mathlib

/-!
Verification of the statelint expression-resolution engine
(src/resolver/types.ts, src/resolver/expression-resolver.ts,
src/resolver/symbol-table.ts, src/resolver/import-resolver.ts).

The TypeScript code is shallowly embedded: JS `Map`s become association
lists preserving insertion order (JS `Map` iterates in insertion order and
`Map.set` on an existing key updates in place), `undefined` becomes
`Option.none`, and thrown exceptions of external collaborators (file
reads, the Babel parser) become `Option`-valued oracle functions.
-/

namespace Statelint

/-- Statically known shape of a binding (`ResolvedValue` in types.ts).
The source interface has optional `value` and `properties` fields; every
value the repository constructs populates `value` for `type: "string"`
and `properties` for `type: "object"`, so the embedding makes them
mandatory. Properties are an insertion-ordered association list mirroring
the JS `Map`. -/
inductive ResolvedValue where
  | vstr (value : String)
  | vobj (properties : List (String × ResolvedValue))
  | vunres
deriving Repr

/-- Symbol table: name to resolved value, insertion ordered (`SymbolTable`
in types.ts, a JS `Map`). -/
abbrev SymbolTable := List (String × ResolvedValue)

/-- `Map.get`: first (and in a real `Map`, only) entry with the key. -/
def getBinding : SymbolTable → String → Option ResolvedValue
  | [], _ => none
  | (k, v) :: rest, name => if k = name then some v else getBinding rest name

/-- `Map.set`: update in place when the key exists (keeping its insertion
position), otherwise append. -/
def setBinding : SymbolTable → String → ResolvedValue → SymbolTable
  | [], name, v => [(name, v)]
  | (k, w) :: rest, name, v =>
    if k = name then (k, v) :: rest else (k, w) :: setBinding rest name v

/-- Result of resolving one expression (`ResolutionResult` in types.ts). -/
structure ResolutionResult where
  resolvedValue : String
  isFullyResolved : Bool
  unresolvedParts : List String
deriving Repr, DecidableEq

/-- AST nodes, covering every node shape the resolver and the symbol-table
builder inspect.  The source type is `Record<string, unknown>`; any node
shape none of the code matches on is `other`, which carries its child
nodes so that the generic child traversal of `buildSymbolTable.visit` is
preserved.  Template quasis are their raw strings (the code only ever
reads `quasi.value.raw`).  `tsAs` stands for both `TSAsExpression` and
`TSSatisfiesExpression`, which every inspection site treats identically. -/
inductive Node where
  | stringLiteral (value : String)
  | identifier (name : String)
  | member (object : Node) (property : Node) (computed : Bool)
  | conditional (test : Node) (consequent : Node) (alternate : Node)
  | template (quasis : List String) (expressions : List Node)
  | call (callee : Node) (arguments : List Node)
  | tsAs (expression : Node)
  | objectExpression (properties : List Node)
  | objectProperty (key : Node) (value : Node)
  | importDecl (specifiers : List Node) (source : String)
  | importSpecifier (localName : String) (importedName : Option String)
  | importDefaultSpecifier (localName : String)
  | importNamespaceSpecifier (localName : String)
  | varDecl (declarations : List Node)
  | varDeclarator (id : Node) (init : Option Node)
  | exportNamed (declaration : Option Node)
  | exportDefault (declaration : Node)
  | other (children : List Node)
deriving Repr

/-- String methods treated as non-semantic passthroughs
(`STRING_PASSTHROUGH_METHODS` in expression-resolver.ts). -/
def STRING_PASSTHROUGH_METHODS : List String :=
  ["trim", "trimStart", "trimEnd", "trimLeft", "trimRight",
   "replace", "replaceAll", "normalize", "toLowerCase", "toUpperCase"]

/-- `stringifyExpr` (expression-resolver.ts:286).  For a non-computed
member access the source interpolates `node.property.name` directly, which
in JS renders as the string `undefined` when the property node has no
`name` field. -/
def stringifyExpr : Node → String
  | .identifier name => name
  | .member object property computed =>
    stringifyExpr object ++
      (if computed then "[" ++ stringifyExpr property ++ "]"
       else "." ++ (match property with
                    | .identifier name => name
                    | _ => "undefined"))
  | .stringLiteral value => "\"" ++ value ++ "\""
  | _ => "<expr>"

mutual
/-- `collectAllStrings` (expression-resolver.ts:242).  The source pushes
into a shared accumulator array; the embedding returns the pushed strings
in push order.  `value.value` is a JS truthiness test, so an empty string
is skipped. -/
def collectAllStrings : ResolvedValue → List String
  | .vstr value => if value = "" then [] else [value]
  | .vobj properties => collectAllStringsList properties
  | .vunres => []

/-- The `for (const [, v] of value.properties)` loop of
`collectAllStrings`, over the property list in insertion order. -/
def collectAllStringsList : List (String × ResolvedValue) → List String
  | [] => []
  | (_, v) :: rest => collectAllStrings v ++ collectAllStringsList rest
end

/-- The computed-access union loop (expression-resolver.ts:141-150): a
string property with truthy (non-empty) value is pushed, an object
property contributes `collectAllStrings`, anything else contributes
nothing. -/
def collectComputedValues : List (String × ResolvedValue) → List String
  | [] => []
  | (_, v) :: rest =>
    (match v with
     | .vstr value => if value = "" then [] else [value]
     | .vobj properties => collectAllStrings (.vobj properties)
     | .vunres => []) ++ collectComputedValues rest

/-- `resolveMemberExpressionToValue` (expression-resolver.ts:188): walk a
nested member chain down to a `ResolvedValue`.  Only object-typed
intermediate values can be walked through; the property used for the
lookup must be an `Identifier` (the `computed` flag is not consulted
here).  The source is only ever called with `MemberExpression` nodes; on
any other node the guards leave `current` undefined and the result is
`none`. -/
def resolveMemberExpressionToValue (expr : Node) (symbols : SymbolTable) :
    Option ResolvedValue :=
  match expr with
  | .member object property _ =>
    let current : Option ResolvedValue :=
      match object with
      | .identifier name => getBinding symbols name
      | .member o p c => resolveMemberExpressionToValue (.member o p c) symbols
      | _ => none
    match current with
    | some (.vobj properties) =>
      match property with
      | .identifier name => getBinding properties name
      | _ => none
    | _ => none
  | _ => none

/-- The "Get the root object" block of `resolveMemberExpression`
(expression-resolver.ts:103-129): an identifier base is looked up in the
symbol table, a member-expression base is walked recursively, any other
base shape yields no value.  (In the source the latter two failure paths
return the unresolved result directly; they coincide with the `!current`
guard that follows, so the embedding funnels all three through `none`.) -/
def memberBaseValue (object : Node) (symbols : SymbolTable) :
    Option ResolvedValue :=
  match object with
  | .identifier name => getBinding symbols name
  | .member o p c => resolveMemberExpressionToValue (.member o p c) symbols
  | _ => none

/-- The part of `resolveMemberExpression` after the base guard
(expression-resolver.ts:139-185), given the base value `current` (known
non-null and non-unresolved).  The object-leaf case (line 171) and the
final fallthrough (line 181) both produce the same unresolved result. -/
def resolveWithBase (expr property : Node) (computed : Bool)
    (current : ResolvedValue) : ResolutionResult :=
  match current, computed with
  | .vobj properties, true =>
    ⟨String.intercalate " " (collectComputedValues properties), true, []⟩
  | .vobj properties, false =>
    (match property with
     | .identifier propName =>
       (match getBinding properties propName with
        | some (.vstr value) => ⟨value, true, []⟩
        | _ => ⟨"", false, [stringifyExpr expr]⟩)
     | _ => ⟨"", false, [stringifyExpr expr]⟩)
  | _, _ => ⟨"", false, [stringifyExpr expr]⟩

/-- `resolveMemberExpression` (expression-resolver.ts:95). -/
def resolveMemberExpression (expr : Node) (symbols : SymbolTable) :
    ResolutionResult :=
  match expr with
  | .member object property computed =>
    (match memberBaseValue object symbols with
     | none => ⟨"", false, [stringifyExpr (.member object property computed)]⟩
     | some .vunres =>
       ⟨"", false, [stringifyExpr (.member object property computed)]⟩
     | some current =>
       resolveWithBase (.member object property computed) property computed
         current)
  | _ => ⟨"", false, [stringifyExpr expr]⟩

mutual
/-- `resolveExpression` (expression-resolver.ts:21).  The source threads a
`imports : Set<string>` argument that is never read; it is omitted. -/
def resolveExpression (expr : Node) (symbols : SymbolTable) :
    ResolutionResult :=
  match expr with
  | .stringLiteral value => ⟨value, true, []⟩
  | .identifier name =>
    (match getBinding symbols name with
     | some (.vstr value) => ⟨value, true, []⟩
     | _ => ⟨"", false, [name]⟩)
  | .member object property computed =>
    resolveMemberExpression (.member object property computed) symbols
  | .conditional _ consequent alternate =>
    let c := resolveExpression consequent symbols
    let a := resolveExpression alternate symbols
    ⟨String.intercalate " "
       (([c.resolvedValue, a.resolvedValue]).filter (fun s => ¬ s = "")),
     c.isFullyResolved && a.isFullyResolved,
     c.unresolvedParts ++ a.unresolvedParts⟩
  | .template quasis expressions =>
    resolveTemplateLiteral quasis expressions symbols
  | .call callee arguments =>
    resolveCallExpression (.call callee arguments) symbols
  | _ => ⟨"", false, [stringifyExpr expr]⟩

/-- `resolveTemplateLiteral` (expression-resolver.ts:253) as recursion on
the quasi list: each quasi is emitted verbatim, each still-available
embedded expression is resolved and its text appended regardless of
status, and unresolved parts accumulate in source order (only from
not-fully-resolved sub-results, as in the source). -/
def resolveTemplateLiteral (quasis : List String) (expressions : List Node)
    (symbols : SymbolTable) : ResolutionResult :=
  match quasis, expressions with
  | [], _ => ⟨"", true, []⟩
  | q :: qs, [] =>
    let rest := resolveTemplateLiteral qs [] symbols
    ⟨q ++ rest.resolvedValue, rest.isFullyResolved, rest.unresolvedParts⟩
  | q :: qs, e :: es =>
    let r := resolveExpression e symbols
    let rest := resolveTemplateLiteral qs es symbols
    ⟨q ++ r.resolvedValue ++ rest.resolvedValue,
     r.isFullyResolved && rest.isFullyResolved,
     (if r.isFullyResolved then [] else r.unresolvedParts) ++
       rest.unresolvedParts⟩

/-- `resolveCallExpression` (expression-resolver.ts:215): a call whose
callee is a member access on an allow-listed string method resolves the
receiver; anything else is unresolved with the rendered call as the one
fragment. -/
def resolveCallExpression (expr : Node) (symbols : SymbolTable) :
    ResolutionResult :=
  match expr with
  | .call callee _ =>
    (match callee with
     | .member object property _ =>
       (match property with
        | .identifier methodName =>
          if methodName ∈ STRING_PASSTHROUGH_METHODS then
            resolveExpression object symbols
          else ⟨"", false, [stringifyExpr expr]⟩
        | _ => ⟨"", false, [stringifyExpr expr]⟩)
     | _ => ⟨"", false, [stringifyExpr expr]⟩)
  | _ => ⟨"", false, [stringifyExpr expr]⟩
end

end Statelint

namespace Statelint

/-- The spec's result invariant: fully resolved exactly when no unresolved
fragments were collected. -/
def ResolutionInvariant (r : ResolutionResult) : Prop :=
  r.isFullyResolved = true ↔ r.unresolvedParts = []

lemma resolveWithBase_cases (expr property : Node) (computed : Bool)
    (current : ResolvedValue) :
    (∃ s, resolveWithBase expr property computed current = ⟨s, true, []⟩) ∨
    resolveWithBase expr property computed current =
      ⟨"", false, [stringifyExpr expr]⟩ := by
  unfold resolveWithBase
  rcases current with s | props | _
  · cases computed <;> simp
  · cases computed
    · rcases property with _ | name | _ | _ | _ | _ | _ | _ | _ | _ | _ | _ | _ | _ | _ | _ | _ | _ <;> simp
      rcases h : getBinding props name with _ | v
      · simp
      · rcases v with s | ps | _ <;> simp
    · simp
  · cases computed <;> simp

lemma resolveMemberExpression_inv (expr : Node) (symbols : SymbolTable) :
    ResolutionInvariant (resolveMemberExpression expr symbols) := by
  rcases expr with v | name | ⟨object, property, computed⟩ | ⟨t, c, a⟩ |
    ⟨qs, es⟩ | ⟨callee, args⟩ | e | props | ⟨k, v⟩ | ⟨specs, src⟩ | _ | _ | _ |
    decls | ⟨id, init⟩ | d | d | children <;>
    try simp [resolveMemberExpression, ResolutionInvariant]
  rcases h : memberBaseValue object symbols with _ | v
  · simp [resolveMemberExpression, h, ResolutionInvariant]
  · rcases v with s | props | _
    · rcases resolveWithBase_cases (.member object property computed)
        property computed (.vstr s) with ⟨t, ht⟩ | ht <;>
        simp [resolveMemberExpression, h, ht, ResolutionInvariant]
    · rcases resolveWithBase_cases (.member object property computed)
        property computed (.vobj props) with ⟨t, ht⟩ | ht <;>
        simp [resolveMemberExpression, h, ht, ResolutionInvariant]
    · simp [resolveMemberExpression, h, ResolutionInvariant]

lemma resolveTemplateLiteral_inv (quasis : List String)
    (expressions : List Node) (symbols : SymbolTable)
    (h : ∀ e ∈ expressions, ResolutionInvariant (resolveExpression e symbols)) :
    ResolutionInvariant (resolveTemplateLiteral quasis expressions symbols) := by
  induction quasis generalizing expressions with
  | nil => simp [resolveTemplateLiteral, ResolutionInvariant]
  | cons q qs ih =>
    rcases expressions with _ | ⟨e, es⟩
    · have := ih [] (by simp)
      simp only [resolveTemplateLiteral]
      simpa [ResolutionInvariant] using this
    · have he : ResolutionInvariant (resolveExpression e symbols) :=
        h e (by simp)
      have hrest := ih es (fun x hx => h x (by simp [hx]))
      simp only [resolveTemplateLiteral]
      rcases hf : (resolveExpression e symbols).isFullyResolved with _ | _
      · have hne : (resolveExpression e symbols).unresolvedParts ≠ [] := by
          intro hc
          have := he.mpr hc
          simp [hf] at this
        simp [ResolutionInvariant, hf, hne]
      · simp only [ResolutionInvariant, hf] at hrest ⊢
        simpa using hrest

lemma resolveCallExpression_inv (callee : Node) (arguments : List Node)
    (symbols : SymbolTable)
    (h : ∀ o p c, callee = .member o p c →
      ResolutionInvariant (resolveExpression o symbols)) :
    ResolutionInvariant (resolveCallExpression (.call callee arguments) symbols) := by
  rcases callee with v | name | ⟨object, property, computed⟩ | ⟨t, c, a⟩ |
    ⟨qs, es⟩ | ⟨cal, args⟩ | e | props | ⟨k, v⟩ | ⟨specs, src⟩ | _ | _ | _ |
    decls | ⟨id, init⟩ | d | d | children <;>
    try simp [resolveCallExpression, ResolutionInvariant]
  rcases property with _ | name | _ | _ | _ | _ | _ | _ | _ | _ | _ | _ | _ | _ | _ | _ | _ | _ <;>
    try simp [resolveCallExpression, ResolutionInvariant]
  by_cases hm : name ∈ STRING_PASSTHROUGH_METHODS
  · simpa [resolveCallExpression, hm] using h object (.identifier name) computed rfl
  · simp [resolveCallExpression, hm, ResolutionInvariant]

lemma resolveExpression_inv_aux (n : Nat) : ∀ expr : Node, sizeOf expr ≤ n →
    ∀ symbols : SymbolTable, ResolutionInvariant (resolveExpression expr symbols) := by
  induction n with
  | zero =>
    intro expr h
    exfalso
    rcases expr <;> simp at h
  | succ n ih =>
    intro expr h symbols
    rcases expr with v | name | ⟨object, property, computed⟩ | ⟨t, c, a⟩ |
      ⟨qs, es⟩ | ⟨callee, args⟩ | e | props | ⟨k, v⟩ | ⟨specs, src⟩ | _ | _ | _ |
      decls | ⟨id, init⟩ | d | d | children
    · simp [resolveExpression, ResolutionInvariant]
    · simp only [resolveExpression]
      rcases getBinding symbols name with _ | v
      · simp [ResolutionInvariant]
      · rcases v with s | ps | _ <;> simp [ResolutionInvariant]
    · simpa [resolveExpression] using
        resolveMemberExpression_inv (.member object property computed) symbols
    · have hc := ih c (by simp at h; omega) symbols
      have ha := ih a (by simp at h; omega) symbols
      simp only [resolveExpression]
      rcases hfc : (resolveExpression c symbols).isFullyResolved with _ | _
      · have h1 : (resolveExpression c symbols).unresolvedParts ≠ [] := by
          intro hx; have := hc.mpr hx; simp [hfc] at this
        simp [ResolutionInvariant, hfc, h1]
      · rcases hfa : (resolveExpression a symbols).isFullyResolved with _ | _
        · have h2 : (resolveExpression a symbols).unresolvedParts ≠ [] := by
            intro hx; have := ha.mpr hx; simp [hfa] at this
          simp [ResolutionInvariant, hfc, hfa, h2]
        · simp [ResolutionInvariant, hfc, hfa, hc.mp hfc, ha.mp hfa]
    · simp only [resolveExpression]
      apply resolveTemplateLiteral_inv
      intro e he
      have h1 : sizeOf e < sizeOf es := List.sizeOf_lt_of_mem he
      exact ih e (by simp at h; omega) symbols
    · simp only [resolveExpression]
      apply resolveCallExpression_inv
      intro o p c hc
      subst hc
      exact ih o (by simp at h; omega) symbols
    · simp [resolveExpression, ResolutionInvariant]
    · simp [resolveExpression, ResolutionInvariant]
    · simp [resolveExpression, ResolutionInvariant]
    · simp [resolveExpression, ResolutionInvariant]
    · simp [resolveExpression, ResolutionInvariant]
    · simp [resolveExpression, ResolutionInvariant]
    · simp [resolveExpression, ResolutionInvariant]
    · simp [resolveExpression, ResolutionInvariant]
    · simp [resolveExpression, ResolutionInvariant]
    · simp [resolveExpression, ResolutionInvariant]
    · simp [resolveExpression, ResolutionInvariant]
    · simp [resolveExpression, ResolutionInvariant]

lemma resolveExpression_inv (expr : Node) (symbols : SymbolTable) :
    ResolutionInvariant (resolveExpression expr symbols) :=
  resolveExpression_inv_aux (sizeOf expr) expr (Nat.le_refl _) symbols

/-- C1: for every expression node and every binding table, the result of
`resolveExpression` has `isFullyResolved = false` if and only if
`unresolvedParts` is non-empty — equivalently, `isFullyResolved = true`
exactly when `unresolvedParts` is empty.  Holds across all cases,
including nested conditionals, templates, member accesses and calls. -/
theorem C1_fullyResolved_iff_no_unresolvedParts (expr : Node)
    (symbols : SymbolTable) :
    (resolveExpression expr symbols).isFullyResolved = false ↔
      (resolveExpression expr symbols).unresolvedParts ≠ [] := by
  have h := resolveExpression_inv expr symbols
  unfold ResolutionInvariant at h
  constructor
  · intro hf hc
    have := h.mpr hc
    simp [hf] at this
  · intro hne
    rcases hx : (resolveExpression expr symbols).isFullyResolved with _ | _
    · rfl
    · exact absurd (h.mp hx) hne

end Statelint

namespace Statelint

mutual
/-- Modelled from the spec: "every `String` leaf reachable at any depth" of
a resolved value, in depth-first property order — including empty-string
leaves, which the spec's flatten wording does not exclude. -/
def allStringLeaves : ResolvedValue → List String
  | .vstr value => [value]
  | .vobj properties => allStringLeavesList properties
  | .vunres => []

/-- List form of `allStringLeaves` over a property list. -/
def allStringLeavesList : List (String × ResolvedValue) → List String
  | [] => []
  | (_, v) :: rest => allStringLeaves v ++ allStringLeavesList rest
end

/-- Modelled from the spec: the template concatenation
`L0 + E0 + L1 + ... + Ln` over literal parts and resolved expression
texts, in source order. -/
def templateJoin : List String → List String → String
  | [], _ => ""
  | q :: qs, [] => q ++ templateJoin qs []
  | q :: qs, t :: ts => q ++ t ++ templateJoin qs ts

lemma collect_eq_leaves_filter_aux (n : Nat) :
    (∀ v : ResolvedValue, sizeOf v ≤ n →
      collectAllStrings v = (allStringLeaves v).filter (fun s => s ≠ "")) ∧
    (∀ ps : List (String × ResolvedValue), sizeOf ps ≤ n →
      collectAllStringsList ps =
        (allStringLeavesList ps).filter (fun s => s ≠ "")) := by
  induction n with
  | zero =>
    constructor
    · intro v h; exfalso; rcases v <;> simp at h
    · intro ps h
      rcases ps with _ | ⟨p, rest⟩
      · simp [collectAllStringsList, allStringLeavesList]
      · exfalso; simp at h
  | succ n ih =>
    constructor
    · intro v h
      rcases v with s | props | _
      · by_cases hs : s = "" <;>
          simp [collectAllStrings, allStringLeaves, hs]
      · have := ih.2 props (by simp at h; omega)
        simpa [collectAllStrings, allStringLeaves] using this
      · simp [collectAllStrings, allStringLeaves]
    · intro ps h
      rcases ps with _ | ⟨⟨k, v⟩, rest⟩
      · simp [collectAllStringsList, allStringLeavesList]
      · have h1 := ih.1 v (by simp at h; omega)
        have h2 := ih.2 rest (by simp at h; omega)
        simp [collectAllStringsList, allStringLeavesList, h1, h2]

lemma collectAllStrings_eq_leaves_filter (v : ResolvedValue) :
    collectAllStrings v = (allStringLeaves v).filter (fun s => s ≠ "") :=
  (collect_eq_leaves_filter_aux (sizeOf v)).1 v (Nat.le_refl _)

lemma collectAllStringsList_eq_leaves_filter
    (ps : List (String × ResolvedValue)) :
    collectAllStringsList ps =
      (allStringLeavesList ps).filter (fun s => s ≠ "") :=
  (collect_eq_leaves_filter_aux (sizeOf ps)).2 ps (Nat.le_refl _)

lemma collectComputedValues_eq_list (ps : List (String × ResolvedValue)) :
    collectComputedValues ps = collectAllStringsList ps := by
  induction ps with
  | nil => simp [collectComputedValues, collectAllStringsList]
  | cons p rest ih =>
    rcases p with ⟨k, v⟩
    rcases v with s | props | _ <;>
      simp [collectComputedValues, collectAllStringsList, collectAllStrings, ih]

/-- C3: resolving a member access: the recursive walk of the base delivers
object- or string-typed values (the only two non-unresolved shapes), and
resolution then continues from the delivered value; a base whose walk
yields nothing or an unresolved value makes the whole access unresolved
with the single fragment rendering the full access path. -/
theorem C3_member_base_walk (object property : Node) (computed : Bool)
    (symbols : SymbolTable) :
    (memberBaseValue object symbols = none ∨
        memberBaseValue object symbols = some .vunres →
      resolveExpression (.member object property computed) symbols =
        ⟨"", false, [stringifyExpr (.member object property computed)]⟩) ∧
    (∀ v, memberBaseValue object symbols = some v → v ≠ .vunres →
      ((∃ s, v = .vstr s) ∨ (∃ ps, v = .vobj ps)) ∧
      resolveExpression (.member object property computed) symbols =
        resolveWithBase (.member object property computed) property computed
          v) := by
  constructor
  · rintro (h | h) <;>
      simp [resolveExpression, resolveMemberExpression, h]
  · intro v hv hne
    rcases v with s | props | _
    · exact ⟨Or.inl ⟨s, rfl⟩,
        by simp [resolveExpression, resolveMemberExpression, hv]⟩
    · exact ⟨Or.inr ⟨props, rfl⟩,
        by simp [resolveExpression, resolveMemberExpression, hv]⟩
    · exact absurd rfl hne

theorem C3_member_base_walk_witness :
    resolveExpression (.member (.identifier ("a")) (.identifier ("b")) false)
        [(("a"), .vobj [(("b"), .vstr ("x"))])] =
      resolveWithBase
        (.member (.identifier ("a")) (.identifier ("b")) false)
        (.identifier ("b")) false (.vobj [(("b"), .vstr ("x"))]) ∧
    resolveExpression (.member (.identifier ("z")) (.identifier ("b")) false)
        [] =
      ⟨"", false,
        [stringifyExpr (.member (.identifier ("z")) (.identifier ("b")) false)]⟩ := by
  constructor
  · exact ((C3_member_base_walk (.identifier ("a")) (.identifier ("b")) false
      [(("a"), .vobj [(("b"), .vstr ("x"))])]).2
      (.vobj [(("b"), .vstr ("x"))])
      (by simp [memberBaseValue, getBinding]) (by simp)).2
  · exact (C3_member_base_walk (.identifier ("z")) (.identifier ("b")) false
      []).1 (Or.inl (by simp [memberBaseValue, getBinding]))


/-- C2 as stated is false: the flattened union joins only the *non-empty*
string leaves, so an empty-string leaf does not contribute a separator.
For `a[i]` against `a = {k: "", m: "x"}` the engine returns `"x"`, while
the space-joined concatenation of every string leaf would be `" x"`. -/
theorem C2_counterexample :
    ¬ ((resolveExpression
          (.member (.identifier ("a")) (.identifier ("i")) true)
          [(("a"), .vobj [(("k"), .vstr ("")), (("m"), .vstr ("x"))])]).resolvedValue =
        String.intercalate " "
          (allStringLeaves (.vobj [(("k"), .vstr ("")), (("m"), .vstr ("x"))]))) := by
  simp [resolveExpression, resolveMemberExpression, memberBaseValue,
    getBinding, resolveWithBase, collectComputedValues, collectAllStrings,
    allStringLeaves, allStringLeavesList, String.intercalate,
    String.intercalate.go]

/-- C2 (amended): for computed access whose base resolves to an object,
the text is the space-joined concatenation of every *non-empty* string
leaf reachable at any nesting depth (object-typed intermediates and
unresolved properties contribute nothing), fully resolved with no
unresolved parts, regardless of the index expression. -/
theorem C2_computed_access_flattens (object property : Node)
    (symbols : SymbolTable) (props : List (String × ResolvedValue))
    (h : memberBaseValue object symbols = some (.vobj props)) :
    resolveExpression (.member object property true) symbols =
      ⟨String.intercalate " "
         ((allStringLeaves (.vobj props)).filter (fun s => s ≠ "")),
       true, []⟩ := by
  have hc : collectComputedValues props =
      (allStringLeaves (.vobj props)).filter (fun s => s ≠ "") := by
    rw [collectComputedValues_eq_list, collectAllStringsList_eq_leaves_filter]
    simp [allStringLeaves]
  simp [resolveExpression, resolveMemberExpression, h, resolveWithBase, hc]

theorem C2_computed_access_flattens_witness :
    resolveExpression
        (.member (.identifier ("tokens")) (.identifier ("i")) true)
        [(("tokens"),
          .vobj [(("a"), .vstr ("x")),
                 (("nested"), .vobj [(("b"), .vstr ("y"))]),
                 (("u"), .vunres)])] =
      ⟨String.intercalate " "
         ((allStringLeaves
             (.vobj [(("a"), .vstr ("x")),
                     (("nested"), .vobj [(("b"), .vstr ("y"))]),
                     (("u"), .vunres)])).filter (fun s => s ≠ "")),
       true, []⟩ :=
  C2_computed_access_flattens (.identifier ("tokens")) (.identifier ("i"))
    [(("tokens"),
      .vobj [(("a"), .vstr ("x")),
             (("nested"), .vobj [(("b"), .vstr ("y"))]),
             (("u"), .vunres)])]
    [(("a"), .vstr ("x")),
     (("nested"), .vobj [(("b"), .vstr ("y"))]),
     (("u"), .vunres)]
    (by simp [memberBaseValue, getBinding])

lemma collectComputedValues_append (l1 l2 : List (String × ResolvedValue)) :
    collectComputedValues (l1 ++ l2) =
      collectComputedValues l1 ++ collectComputedValues l2 := by
  induction l1 with
  | nil => simp [collectComputedValues]
  | cons p rest ih =>
    rcases p with ⟨k, v⟩
    simp [collectComputedValues, ih]

/-- C10: in computed access on an object base, unresolved properties and
empty-string leaves are dropped from the flattened union without
affecting the verdict; in particular an object all of whose properties
are unresolved yields text `""`, fully resolved, no unresolved parts. -/
theorem C10_computed_access_drops_silently (property : Node)
    (props1 props2 props : List (String × ResolvedValue))
    (k : String) (v : ResolvedValue)
    (hv : v = .vunres ∨ v = .vstr (""))
    (hall : ∀ p ∈ props, p.2 = ResolvedValue.vunres) :
    resolveExpression (.member (.identifier ("a")) property true)
        [(("a"), .vobj (props1 ++ (k, v) :: props2))] =
      resolveExpression (.member (.identifier ("a")) property true)
        [(("a"), .vobj (props1 ++ props2))] ∧
    resolveExpression (.member (.identifier ("a")) property true)
        [(("a"), .vobj props)] =
      ⟨"", true, []⟩ := by
  have hdrop : collectComputedValues ((k, v) :: props2) =
      collectComputedValues props2 := by
    rcases hv with hv | hv <;> subst hv <;> simp [collectComputedValues]
  have hempty : collectComputedValues props = [] := by
    induction props with
    | nil => simp [collectComputedValues]
    | cons p rest ih =>
      have hp := hall p (by simp)
      rcases p with ⟨kk, vv⟩
      simp at hp
      subst hp
      simp [collectComputedValues]
      exact ih (fun q hq => hall q (by simp [hq]))
  constructor
  · simp [resolveExpression, resolveMemberExpression, memberBaseValue,
      getBinding, resolveWithBase, collectComputedValues_append, hdrop]
  · simp [resolveExpression, resolveMemberExpression, memberBaseValue,
      getBinding, resolveWithBase, hempty, String.intercalate]

theorem C10_computed_access_drops_silently_witness :
    resolveExpression
        (.member (.identifier ("a")) (.identifier ("i")) true)
        [(("a"), .vobj [(("p"), .vstr ("x")), (("q"), .vunres)])] =
      resolveExpression
        (.member (.identifier ("a")) (.identifier ("i")) true)
        [(("a"), .vobj [(("p"), .vstr ("x"))])] ∧
    resolveExpression
        (.member (.identifier ("a")) (.identifier ("i")) true)
        [(("a"), .vobj [(("u"), .vunres), (("w"), .vunres)])] =
      ⟨"", true, []⟩ :=
  C10_computed_access_drops_silently (.identifier ("i"))
    [(("p"), .vstr ("x"))] [] [(("u"), .vunres), (("w"), .vunres)]
    ("q") .vunres (Or.inl rfl) (by intro p hp; simp at hp; rcases hp with hp | hp <;> simp [hp])


lemma resolveTemplateLiteral_spec (quasis : List String)
    (expressions : List Node) (symbols : SymbolTable)
    (h : quasis.length = expressions.length + 1) :
    resolveTemplateLiteral quasis expressions symbols =
      ⟨templateJoin quasis
         (expressions.map (fun e => (resolveExpression e symbols).resolvedValue)),
       expressions.all (fun e => (resolveExpression e symbols).isFullyResolved),
       expressions.flatMap
         (fun e => (resolveExpression e symbols).unresolvedParts)⟩ := by
  induction quasis generalizing expressions with
  | nil => simp at h
  | cons q qs ih =>
    rcases expressions with _ | ⟨e, es⟩
    · have hq : qs = [] := by
        simp at h
        exact h
      subst hq
      simp [resolveTemplateLiteral, templateJoin]
    · have hlen : qs.length = es.length + 1 := by simpa using h
      have hrest := ih es hlen
      have hinv := resolveExpression_inv e symbols
      simp only [resolveTemplateLiteral, hrest]
      rcases hf : (resolveExpression e symbols).isFullyResolved with _ | _
      · simp [templateJoin, hf]
      · have hparts : (resolveExpression e symbols).unresolvedParts = [] :=
          hinv.mp hf
        simp [templateJoin, hf, hparts]

/-- C6: for a template literal with literal parts `L0..Ln` and embedded
expressions `E0..E(n-1)`, the text is `L0 + resolve(E0).text + L1 + ...`
in source order (each embedded expression's text appended whether or not
it resolved), the result is fully resolved iff every embedded expression
fully resolved, and the unresolved parts are the in-order concatenation
of the embedded expressions' unresolved fragments. -/
theorem C6_template_order (quasis : List String) (expressions : List Node)
    (symbols : SymbolTable)
    (h : quasis.length = expressions.length + 1) :
    resolveExpression (.template quasis expressions) symbols =
      ⟨templateJoin quasis
         (expressions.map (fun e => (resolveExpression e symbols).resolvedValue)),
       expressions.all (fun e => (resolveExpression e symbols).isFullyResolved),
       expressions.flatMap
         (fun e => (resolveExpression e symbols).unresolvedParts)⟩ := by
  simpa [resolveExpression] using
    resolveTemplateLiteral_spec quasis expressions symbols h

theorem C6_template_order_witness :
    resolveExpression
        (.template [("p "), (" "), ("")]
          [(.identifier ("x")), (.identifier ("y"))])
        [(("x"), .vstr ("v"))] =
      ⟨templateJoin [("p "), (" "), ("")]
         ([(.identifier ("x")), (.identifier ("y"))].map
           (fun e => (resolveExpression e [(("x"), .vstr ("v"))]).resolvedValue)),
       [(.identifier ("x")), (.identifier ("y"))].all
         (fun e => (resolveExpression e [(("x"), .vstr ("v"))]).isFullyResolved),
       [(.identifier ("x")), (.identifier ("y"))].flatMap
         (fun e => (resolveExpression e [(("x"), .vstr ("v"))]).unresolvedParts)⟩ :=
  C6_template_order [("p "), (" "), ("")]
    [(.identifier ("x")), (.identifier ("y"))]
    [(("x"), .vstr ("v"))] (by simp)

end Statelint

namespace Statelint

/-- The template-initializer loop of `extractValue`
(symbol-table.ts:50-65): one pass accumulating whether every embedded
expression fully resolved and the concatenation of quasis plus the texts
of the *fully resolved* expressions only (an unresolved expression
contributes no text, unlike in `resolveTemplateLiteral`). -/
def extractTemplateParts (symbols : SymbolTable) :
    List String → List Node → Bool × String
  | [], _ => (true, "")
  | q :: qs, [] =>
    let rest := extractTemplateParts symbols qs []
    (rest.1, q ++ rest.2)
  | q :: qs, e :: es =>
    let r := resolveExpression e symbols
    let rest := extractTemplateParts symbols qs es
    if r.isFullyResolved then (rest.1, q ++ r.resolvedValue ++ rest.2)
    else (false, q ++ rest.2)

mutual
/-- `extractValue` (symbol-table.ts:30-97): structural case analysis on a
binding's initializer, resolving template expressions against the symbol
table built so far.  The `if (keyName)` guard on object keys is a JS
truthiness test, so an empty-string key is skipped. -/
def extractValue (symbols : SymbolTable) : Node → ResolvedValue
  | .tsAs expression => extractValue symbols expression
  | .stringLiteral value => .vstr value
  | .template quasis expressions =>
    (match expressions with
     | [] => .vstr (String.join quasis)
     | _ :: _ =>
       let r := extractTemplateParts symbols quasis expressions
       if r.1 then .vstr r.2 else .vunres)
  | .objectExpression props => .vobj (extractProps symbols props [])
  | _ => .vunres

/-- The `ObjectExpression` property loop of `extractValue`
(symbol-table.ts:77-91), accumulating into a fresh map with `Map.set`
semantics. -/
def extractProps (symbols : SymbolTable) :
    List Node → List (String × ResolvedValue) → List (String × ResolvedValue)
  | [], acc => acc
  | p :: rest, acc =>
    let acc1 :=
      match p with
      | .objectProperty key value =>
        (match key with
         | .identifier name =>
           if name = "" then acc
           else setBinding acc name (extractValue symbols value)
         | .stringLiteral v =>
           if v = "" then acc
           else setBinding acc v (extractValue symbols value)
         | _ => acc)
      | _ => acc
    extractProps symbols rest acc1
end

/-- A queued import (the `pendingImports` entries of `buildSymbolTable`,
symbol-table.ts:24-28). -/
structure PendingImport where
  localName : String
  importedName : String
  sourcePath : String

/-- Mutable state of the `buildSymbolTable` traversal: the symbol map and
the queued imports. -/
structure BuildState where
  symbols : SymbolTable
  pendingImports : List PendingImport

/-- The import-specifier loop (symbol-table.ts:108-126).  `!localName`
and the `||` fallback for the imported name follow JS truthiness, so
empty-string names behave like missing ones. -/
def importSpecEntries (specifiers : List Node) (sourcePath : String) :
    List PendingImport :=
  match specifiers with
  | [] => []
  | spec :: rest =>
    (match spec with
     | .importSpecifier localName importedName =>
       if localName = "" then []
       else
         [⟨localName,
           (match importedName with
            | some n => if n = "" then localName else n
            | none => localName),
           sourcePath⟩]
     | .importDefaultSpecifier localName =>
       if localName = "" then []
       else [⟨localName, "default", sourcePath⟩]
     | .importNamespaceSpecifier localName =>
       if localName = "" then []
       else [⟨localName, "*", sourcePath⟩]
     | _ => []) ++ importSpecEntries rest sourcePath

/-- The declarator loop shared by the `VariableDeclaration` and
`ExportNamedDeclaration` cases of `visit` (symbol-table.ts:130-164):
each `VariableDeclarator` with an identifier id and an initializer binds
`extractValue` of the initializer against the table built so far. -/
def processDeclarators (symbols : SymbolTable) : List Node → SymbolTable
  | [] => symbols
  | d :: rest =>
    let symbols1 :=
      match d with
      | .varDeclarator (.identifier name) (some init) =>
        setBinding symbols name (extractValue symbols init)
      | _ => symbols
    processDeclarators symbols1 rest

/-- The non-recursive part of `visit` (symbol-table.ts:99-164): the three
`if` blocks matching import declarations, variable declarations and
export-wrapped variable declarations.  Any other node shape changes
nothing. -/
def processNode (node : Node) (st : BuildState) : BuildState :=
  match node with
  | .importDecl specifiers sourcePath =>
    { st with
      pendingImports :=
        st.pendingImports ++ importSpecEntries specifiers sourcePath }
  | .varDecl declarations =>
    { st with symbols := processDeclarators st.symbols declarations }
  | .exportNamed (some (.varDecl declarations)) =>
    { st with symbols := processDeclarators st.symbols declarations }
  | _ => st

mutual
/-- `visit` (symbol-table.ts:99-180): process the node itself, then
recurse into every child node ("Recurse into child nodes",
symbol-table.ts:166-179).  Note the traversal is *not* restricted to the
top level: it descends into every child, and the declaration of an
export-wrapped variable declaration is processed a second time when the
traversal reaches it as a child. -/
def visit (node : Node) (st : BuildState) : BuildState :=
  match node with
  | .member object property computed =>
    visit property (visit object (processNode (.member object property computed) st))
  | .conditional t c a =>
    visit a (visit c (visit t (processNode (.conditional t c a) st)))
  | .template quasis expressions =>
    visitList expressions (processNode (.template quasis expressions) st)
  | .call callee arguments =>
    visitList arguments (visit callee (processNode (.call callee arguments) st))
  | .tsAs expression => visit expression (processNode (.tsAs expression) st)
  | .objectExpression props =>
    visitList props (processNode (.objectExpression props) st)
  | .objectProperty key value =>
    visit value (visit key (processNode (.objectProperty key value) st))
  | .importDecl specifiers source =>
    visitList specifiers (processNode (.importDecl specifiers source) st)
  | .varDecl declarations =>
    visitList declarations (processNode (.varDecl declarations) st)
  | .varDeclarator id init =>
    (match init with
     | some i => visit i (visit id (processNode (.varDeclarator id (some i)) st))
     | none => visit id (processNode (.varDeclarator id none) st))
  | .exportNamed declaration =>
    (match declaration with
     | some d => visit d (processNode (.exportNamed (some d)) st)
     | none => processNode (.exportNamed none) st)
  | .exportDefault declaration =>
    visit declaration (processNode (.exportDefault declaration) st)
  | .other children => visitList children (processNode (.other children) st)
  | leaf => processNode leaf st

/-- The child loop of `visit` over an array-valued child, in order. -/
def visitList (nodes : List Node) (st : BuildState) : BuildState :=
  match nodes with
  | [] => st
  | n :: rest => visitList rest (visit n st)
end

/-- Import cache (import-resolver.ts:74): absolute resolved path to the
built symbol table, a process-wide JS `Map`. -/
abbrev Cache := List (String × SymbolTable)

/-- `Map.get` on the import cache. -/
def cacheGet : Cache → String → Option SymbolTable
  | [], _ => none
  | (k, v) :: rest, path => if k = path then some v else cacheGet rest path

/-- `Map.set` on the import cache. -/
def cacheSet : Cache → String → SymbolTable → Cache
  | [], path, v => [(path, v)]
  | (k, w) :: rest, path, v =>
    if k = path then (k, v) :: rest else (k, w) :: cacheSet rest path v

/-- `value.type !== "unresolved"` (import-resolver.ts:160). -/
def isUnresolvedValue : ResolvedValue → Bool
  | .vunres => true
  | _ => false

/-- `getExportedValue` (import-resolver.ts:152): `"*"` builds a synthetic
object of all non-unresolved bindings in order; `"default"` and named
exports are direct lookups. -/
def getExportedValue (symbols : SymbolTable) (exportName : String) :
    Option ResolvedValue :=
  if exportName = "*" then
    some (.vobj (symbols.filter (fun p => ¬ isUnresolvedValue p.2 = true)))
  else if exportName = "default" then getBinding symbols ("default")
  else getBinding symbols exportName

/-- File-access capability (`FileReader` in types.ts).  `read` throwing is
modelled as `none`; `exists` is spelled `fsExists` because `exists` is a
Lean keyword. -/
structure FileReader where
  fsExists : String → Bool
  read : String → Option String

/-- External collaborators of the import resolver: the Babel parser
(`none` models a parse throw; with `errorRecovery: true` the source still
catches whatever escapes) and the `node:path` functions `dirname` and
`resolve`. -/
structure ImportEnv where
  parse : String → Option Node
  dirname : String → String
  resolvePath : String → String → String

/-- `const extensions = [".ts", ".tsx", ".js", ".jsx"]`
(import-resolver.ts:94). -/
def importExtensions : List String := [".ts", ".tsx", ".js", ".jsx"]

/-- The path-probing prefix of `resolveImport` (import-resolver.ts:89-117):
the specifier resolved as-is against the current file's directory, then
with each extension appended (first match wins), then as a directory with
an `index` file per extension; `none` if nothing exists. -/
def locateImportFile (env : ImportEnv) (fileReader : FileReader)
    (currentFilePath importPath : String) : Option String :=
  let currentDir := env.dirname currentFilePath
  let p0 := env.resolvePath currentDir importPath
  let p1 :=
    if fileReader.fsExists p0 then p0
    else
      match importExtensions.find? (fun ext => fileReader.fsExists (p0 ++ ext)) with
      | some ext => p0 ++ ext
      | none => p0
  let p2 :=
    if fileReader.fsExists p1 then p1
    else
      match importExtensions.find?
          (fun ext => fileReader.fsExists (env.resolvePath p1 ("index" ++ ext))) with
      | some ext => env.resolvePath p1 ("index" ++ ext)
      | none => p1
  if fileReader.fsExists p2 then some p2 else none

/-- `resolveImport` (import-resolver.ts:82-149).  The module-level cache is
threaded explicitly; the `try/catch` that converts read and parse throws
into `undefined` becomes the `none` cases, which leave the cache
untouched exactly as the source's early `catch` does. -/
def resolveImport (env : ImportEnv) (fileReader : FileReader) (cache : Cache)
    (currentFilePath importPath importedName : String)
    (buildSymbolTableFn : Node → String → SymbolTable) :
    Option ResolvedValue × Cache :=
  match locateImportFile env fileReader currentFilePath importPath with
  | none => (none, cache)
  | some resolvedPath =>
    match cacheGet cache resolvedPath with
    | some cachedSymbols => (getExportedValue cachedSymbols importedName, cache)
    | none =>
      match fileReader.read resolvedPath with
      | none => (none, cache)
      | some content =>
        match env.parse content with
        | none => (none, cache)
        | some importedAst =>
          let importedSymbols := buildSymbolTableFn importedAst resolvedPath
          let cache1 := cacheSet cache resolvedPath importedSymbols
          (getExportedValue importedSymbols importedName, cache1)

/-- `SymbolTableOptions` (types.ts).  The source defaults `followImports`
to `true`. -/
structure SymbolTableOptions where
  currentFilePath : Option String := none
  followImports : Bool := true

/-- `buildSymbolTable` specialised to `followImports: false`: the
traversal runs, and every queued import is bound to `Unresolved` without
touching the import resolver (symbol-table.ts:201-204). -/
def buildSymbolTableNoFollow (ast : Node) : SymbolTable :=
  let st := visit ast ⟨[], []⟩
  st.pendingImports.foldl (fun s p => setBinding s p.localName .vunres) st.symbols

/-- `buildImportSymbolTable` (symbol-table.ts:192-198): the callback handed
to `resolveImport`, which calls `buildSymbolTable` with
`followImports: false` ("Prevent deep recursion").  The theorem for C7
proves that such a call is exactly `buildSymbolTableNoFollow`, which makes
this non-recursive definition faithful. -/
def buildImportSymbolTable (importAst : Node) (_filePath : String) : SymbolTable :=
  buildSymbolTableNoFollow importAst

/-- One iteration of the pending-import loop (symbol-table.ts:200-221):
without file context or with `followImports` false the local name is bound
`Unresolved`; otherwise `resolveImport` runs and a `undefined` result
degrades to `Unresolved`. -/
def applyPendingImport (env : ImportEnv) (fileReader : FileReader)
    (options : SymbolTableOptions) (acc : SymbolTable × Cache)
    (p : PendingImport) : SymbolTable × Cache :=
  match options.currentFilePath, options.followImports with
  | some currentFilePath, true =>
    let r := resolveImport env fileReader acc.2 currentFilePath p.sourcePath
      p.importedName buildImportSymbolTable
    (match r.1 with
     | some v => (setBinding acc.1 p.localName v, r.2)
     | none => (setBinding acc.1 p.localName .vunres, r.2))
  | _, _ => (setBinding acc.1 p.localName .vunres, acc.2)

/-- `buildSymbolTable` (symbol-table.ts:19-224): depth-first traversal,
then resolution of the queued imports in order.  The default
`fileReader = defaultFileReader` reads the real filesystem and is not
modelled; a `FileReader` must be supplied. -/
def buildSymbolTable (env : ImportEnv) (fileReader : FileReader)
    (cache : Cache) (ast : Node) (options : SymbolTableOptions) :
    SymbolTable × Cache :=
  let st := visit ast ⟨[], []⟩
  st.pendingImports.foldl (applyPendingImport env fileReader options)
    (st.symbols, cache)

end Statelint

namespace Statelint

lemma getBinding_setBinding_self (s : SymbolTable) (name : String)
    (v : ResolvedValue) : getBinding (setBinding s name v) name = some v := by
  induction s with
  | nil => simp [setBinding, getBinding]
  | cons p rest ih =>
    rcases p with ⟨k, w⟩
    by_cases hk : k = name <;> simp [setBinding, getBinding, hk, ih]

lemma getBinding_setBinding_other (s : SymbolTable) (name k : String)
    (v : ResolvedValue) (h : k ≠ name) :
    getBinding (setBinding s name v) k = getBinding s k := by
  induction s with
  | nil =>
    simp only [setBinding, getBinding]
    rw [if_neg (Ne.symm h)]
  | cons p rest ih =>
    rcases p with ⟨k1, w⟩
    by_cases hk : k1 = name
    · subst hk
      simp only [setBinding, if_pos rfl, getBinding]
      rw [if_neg (Ne.symm h), if_neg (Ne.symm h)]
    · simp only [setBinding, if_neg hk, getBinding]
      rw [ih]

lemma foldl_setUnres_not_mem (pending : List PendingImport)
    (s : SymbolTable) (name : String)
    (h : ¬ name ∈ pending.map PendingImport.localName) :
    getBinding
        (pending.foldl (fun s p => setBinding s p.localName .vunres) s) name =
      getBinding s name := by
  induction pending generalizing s with
  | nil => simp
  | cons p rest ih =>
    simp only [List.map_cons, List.mem_cons] at h
    push_neg at h
    simp only [List.foldl_cons]
    rw [ih _ (by simpa using h.2), getBinding_setBinding_other _ _ _ _ h.1]

lemma foldl_setUnres_mem (pending : List PendingImport) (s : SymbolTable)
    (name : String) (h : name ∈ pending.map PendingImport.localName) :
    getBinding
        (pending.foldl (fun s p => setBinding s p.localName .vunres) s) name =
      some .vunres := by
  induction pending generalizing s with
  | nil => simp at h
  | cons p rest ih =>
    by_cases hr : name ∈ rest.map PendingImport.localName
    · simpa using ih (setBinding s p.localName .vunres) hr
    · have hp : p.localName = name := by
        simp only [List.map_cons, List.mem_cons] at h
        rcases h with h | h
        · exact h.symm
        · exact absurd h hr
      simp only [List.foldl_cons]
      rw [foldl_setUnres_not_mem rest _ name hr, hp,
        getBinding_setBinding_self]

lemma foldl_applyPending_noFollow (env : ImportEnv)
    (fileReader : FileReader) (cfp : Option String) :
    ∀ (pending : List PendingImport) (s : SymbolTable) (cache : Cache),
    pending.foldl (applyPendingImport env fileReader ⟨cfp, false⟩) (s, cache) =
      (pending.foldl (fun s p => setBinding s p.localName .vunres) s,
       cache) := by
  intro pending
  induction pending with
  | nil => intro s cache; simp
  | cons p rest ih =>
    intro s cache
    simp only [List.foldl_cons]
    rw [show applyPendingImport env fileReader ⟨cfp, false⟩ (s, cache) p =
        (setBinding s p.localName .vunres, cache) from by
      rcases cfp with _ | c <;> rfl]
    exact ih _ _

lemma buildSymbolTable_noFollow (env : ImportEnv) (fileReader : FileReader)
    (cache : Cache) (ast : Node) (currentFilePath : Option String) :
    buildSymbolTable env fileReader cache ast ⟨currentFilePath, false⟩ =
      (buildSymbolTableNoFollow ast, cache) := by
  unfold buildSymbolTable buildSymbolTableNoFollow
  exact foldl_applyPending_noFollow env fileReader currentFilePath _ _ _

/-- C7: import resolution is exactly one level deep.
`buildImportSymbolTable` — the callback `resolveImport` uses to build an
imported file's table — is exactly `buildSymbolTable` with
`followImports := false`, and in such a table every queued import is
bound to `Unresolved` rather than chased, so recursion cannot continue
past the first imported file on any (even cyclic) import graph: in this
development that bound is witnessed by `buildImportSymbolTable` being
definable without reference to `resolveImport` at all. -/
theorem C7_imports_one_level_deep (env : ImportEnv)
    (fileReader : FileReader) (cache : Cache) (ast : Node)
    (currentFilePath : Option String) :
    (buildSymbolTable env fileReader cache ast ⟨currentFilePath, false⟩ =
      (buildSymbolTableNoFollow ast, cache)) ∧
    (∀ filePath, buildImportSymbolTable ast filePath =
      buildSymbolTableNoFollow ast) ∧
    (∀ name,
      name ∈ (visit ast ⟨[], []⟩).pendingImports.map PendingImport.localName →
      getBinding (buildSymbolTableNoFollow ast) name = some .vunres) := by
  refine ⟨buildSymbolTable_noFollow env fileReader cache ast currentFilePath,
    fun _ => rfl, fun name hname => ?_⟩
  unfold buildSymbolTableNoFollow
  exact foldl_setUnres_mem _ _ _ hname

theorem C7_imports_one_level_deep_witness :
    buildSymbolTable ⟨fun _ => none, fun s => s, fun _ p => p⟩
        ⟨fun _ => false, fun _ => none⟩ []
        (.importDecl [(.importSpecifier ("t") (some ("tokens")))] ("./m"))
        ⟨some ("/project/a.ts"), false⟩ =
      (buildSymbolTableNoFollow
        (.importDecl [(.importSpecifier ("t") (some ("tokens")))] ("./m")),
       []) ∧
    getBinding
        (buildSymbolTableNoFollow
          (.importDecl [(.importSpecifier ("t") (some ("tokens")))] ("./m")))
        ("t") = some .vunres := by
  constructor
  · exact (C7_imports_one_level_deep ⟨fun _ => none, fun s => s, fun _ p => p⟩
      ⟨fun _ => false, fun _ => none⟩ []
      (.importDecl [(.importSpecifier ("t") (some ("tokens")))] ("./m"))
      (some ("/project/a.ts"))).1
  · exact (C7_imports_one_level_deep ⟨fun _ => none, fun s => s, fun _ p => p⟩
      ⟨fun _ => false, fun _ => none⟩ []
      (.importDecl [(.importSpecifier ("t") (some ("tokens")))] ("./m"))
      (some ("/project/a.ts"))).2.2 ("t")
      (by simp [visit, visitList, processNode, importSpecEntries])

end Statelint

namespace Statelint

/-- A node nested under `d` layers of constructs the symbol-table builder
has no case for (function bodies, blocks, ...). -/
def nestOther : Nat → Node → Node
  | 0, node => node
  | d + 1, node => .other [nestOther d node]

lemma visit_nestOther (d : Nat) (node : Node) (st : BuildState) :
    visit (nestOther d node) st = visit node st := by
  induction d with
  | zero => rfl
  | succ d ih =>
    simp only [nestOther]
    rw [show visit (.other [nestOther d node]) st =
        visitList [nestOther d node] st from by
      simp [visit, processNode]]
    simp only [visitList]
    rw [ih]

/-- C4 as stated is false: the traversal of `buildSymbolTable` recurses
into every child node, so a variable declaration nested inside a
non-top-level construct (here: two levels of unhandled wrappers, as for a
function body) does create a binding. -/
theorem C4_counterexample :
    getBinding
        (buildSymbolTable ⟨fun _ => none, fun s => s, fun _ p => p⟩
          ⟨fun _ => false, fun _ => none⟩ []
          (.other [(.other [(.varDecl
            [(.varDeclarator (.identifier ("x"))
              (some (.stringLiteral ("y"))))])])])
          ⟨none, true⟩).1 ("x") = some (.vstr ("y")) := by
  simp [buildSymbolTable, visit, visitList, processNode, processDeclarators,
    extractValue, setBinding, getBinding]

/-- C4 (amended): `buildSymbolTable` enters a binding for every variable
declaration with an identifier id and an initializer found *anywhere* in
the tree — the traversal is a full depth-first walk, so nesting a
declaration under any number of non-top-level constructs does not prevent
the binding — as well as for import statements. -/
theorem C4_declarations_bound_at_any_depth (env : ImportEnv)
    (fileReader : FileReader) (cache : Cache) (d : Nat) (name s : String)
    (options : SymbolTableOptions) :
    getBinding
        (buildSymbolTable env fileReader cache
          (nestOther d (.varDecl
            [(.varDeclarator (.identifier name) (some (.stringLiteral s)))]))
          options).1 name = some (.vstr s) := by
  unfold buildSymbolTable
  rw [visit_nestOther]
  have hv : visit (.varDecl
      [(.varDeclarator (.identifier name) (some (.stringLiteral s)))])
      ⟨[], []⟩ =
      ⟨[(name, .vstr s)], []⟩ := by
    simp [visit, visitList, processNode, processDeclarators, extractValue,
      setBinding]
  rw [hv]
  simp [getBinding]

lemma extractTemplateParts_fst (symbols : SymbolTable) :
    ∀ (qs : List String) (es : List Node), qs.length = es.length + 1 →
    (extractTemplateParts symbols qs es).1 =
      es.all (fun e => (resolveExpression e symbols).isFullyResolved) := by
  intro qs
  induction qs with
  | nil => intro es h; simp at h
  | cons q qst ih =>
    intro es h
    rcases es with _ | ⟨e, est⟩
    · have hq : qst = [] := by simpa using h
      subst hq
      simp [extractTemplateParts]
    · have hl : qst.length = est.length + 1 := by simpa using h
      rcases hf : (resolveExpression e symbols).isFullyResolved with _ | _ <;>
        simp [extractTemplateParts, hf, ih est hl]

lemma extractTemplateParts_snd (symbols : SymbolTable) :
    ∀ (qs : List String) (es : List Node), qs.length = es.length + 1 →
    (∀ e ∈ es, (resolveExpression e symbols).isFullyResolved = true) →
    (extractTemplateParts symbols qs es).2 =
      templateJoin qs
        (es.map (fun e => (resolveExpression e symbols).resolvedValue)) := by
  intro qs
  induction qs with
  | nil => intro es h; simp at h
  | cons q qst ih =>
    intro es h hall
    rcases es with _ | ⟨e, est⟩
    · have hq : qst = [] := by simpa using h
      subst hq
      simp [extractTemplateParts, templateJoin]
    · have hl : qst.length = est.length + 1 := by simpa using h
      have hf : (resolveExpression e symbols).isFullyResolved = true :=
        hall e (by simp)
      have hrest := ih est hl (fun x hx => hall x (by simp [hx]))
      simp [extractTemplateParts, templateJoin, hf, hrest]

/-- C5: a binding whose initializer is a string template is
all-or-nothing: with no embedded expressions it yields `String` of the
concatenated literal parts; with embedded expressions it yields `String`
of the full concatenation when every embedded expression fully resolves
against the table built so far, and `Unresolved` otherwise — never a
partially-substituted string. -/
theorem C5_template_initializer_all_or_nothing (symbols : SymbolTable)
    (quasis : List String) (expressions : List Node) :
    (extractValue symbols (.template quasis []) =
      .vstr (String.join quasis)) ∧
    (quasis.length = expressions.length + 1 → expressions ≠ [] →
      ((∀ e ∈ expressions,
          (resolveExpression e symbols).isFullyResolved = true) →
        extractValue symbols (.template quasis expressions) =
          .vstr (templateJoin quasis
            (expressions.map
              (fun e => (resolveExpression e symbols).resolvedValue)))) ∧
      ((¬ ∀ e ∈ expressions,
          (resolveExpression e symbols).isFullyResolved = true) →
        extractValue symbols (.template quasis expressions) = .vunres)) := by
  refine ⟨by simp [extractValue], fun hlen hne => ⟨fun hall => ?_, fun hnot => ?_⟩⟩
  · rcases expressions with _ | ⟨e, es⟩
    · exact absurd rfl hne
    · have h1 := extractTemplateParts_fst symbols quasis (e :: es) hlen
      have h2 := extractTemplateParts_snd symbols quasis (e :: es) hlen hall
      have hallb : (e :: es).all
          (fun e => (resolveExpression e symbols).isFullyResolved) = true := by
        simp only [List.all_eq_true]
        exact hall
      simp [extractValue, h1, h2, hallb]
  · rcases expressions with _ | ⟨e, es⟩
    · exact absurd rfl hne
    · have h1 := extractTemplateParts_fst symbols quasis (e :: es) hlen
      have hallb : (e :: es).all
          (fun e => (resolveExpression e symbols).isFullyResolved) = false := by
        rcases hx : (e :: es).all
            (fun e => (resolveExpression e symbols).isFullyResolved) with _ | _
        · rfl
        · exact absurd (List.all_eq_true.mp hx) hnot
      simp [extractValue, h1, hallb]

theorem C5_template_initializer_all_or_nothing_witness :
    extractValue [(("x"), .vstr ("v"))]
        (.template [("a "), ("")] [(.identifier ("x"))]) =
      .vstr (templateJoin [("a "), ("")]
        ([(.identifier ("x"))].map
          (fun e =>
            (resolveExpression e [(("x"), .vstr ("v"))]).resolvedValue))) ∧
    extractValue [(("x"), .vstr ("v"))]
        (.template [("a "), ("")] [(.identifier ("z"))]) = .vunres := by
  constructor
  · exact ((C5_template_initializer_all_or_nothing [(("x"), .vstr ("v"))]
      [("a "), ("")] [(.identifier ("x"))]).2 (by simp) (by simp)).1
      (by
        intro e he
        simp at he
        subst he
        simp [resolveExpression, getBinding])
  · exact ((C5_template_initializer_all_or_nothing [(("x"), .vstr ("v"))]
      [("a "), ("")] [(.identifier ("z"))]).2 (by simp) (by simp)).2
      (by
        intro hc
        have := hc (.identifier ("z")) (by simp)
        simp [resolveExpression, getBinding] at this)

end Statelint

namespace Statelint

/-- C8: `resolveImport` is total toward its caller: a missing target file,
a read failure, a parse failure, or a missing named export all produce
the "not found" result (`none`) rather than an exception — leaving the
cache untouched — and the pending-import step of `buildSymbolTable` maps
a `none` result to an `Unresolved` binding for the local name. -/
theorem C8_import_failures_degrade (env : ImportEnv)
    (fileReader : FileReader) (cache : Cache)
    (currentFilePath importPath importedName : String)
    (buildFn : Node → String → SymbolTable) :
    (locateImportFile env fileReader currentFilePath importPath = none →
      resolveImport env fileReader cache currentFilePath importPath
        importedName buildFn = (none, cache)) ∧
    (∀ path,
      locateImportFile env fileReader currentFilePath importPath = some path →
      cacheGet cache path = none → fileReader.read path = none →
      resolveImport env fileReader cache currentFilePath importPath
        importedName buildFn = (none, cache)) ∧
    (∀ path content,
      locateImportFile env fileReader currentFilePath importPath = some path →
      cacheGet cache path = none → fileReader.read path = some content →
      env.parse content = none →
      resolveImport env fileReader cache currentFilePath importPath
        importedName buildFn = (none, cache)) ∧
    (importedName ≠ "*" → ∀ tbl : SymbolTable,
      getExportedValue tbl importedName = getBinding tbl importedName) ∧
    (∀ (st : SymbolTable) (c : Cache) (p : PendingImport),
      (resolveImport env fileReader c currentFilePath p.sourcePath
        p.importedName buildImportSymbolTable).1 = none →
      getBinding
        (applyPendingImport env fileReader ⟨some currentFilePath, true⟩
          (st, c) p).1 p.localName = some .vunres) := by
  refine ⟨fun h => ?_, fun path h hc hr => ?_, fun path content h hc hr hp => ?_,
    fun hs tbl => ?_, fun st c p h => ?_⟩
  · simp [resolveImport, h]
  · simp [resolveImport, h, hc, hr]
  · simp [resolveImport, h, hc, hr, hp]
  · by_cases hd : importedName = "default" <;>
      simp [getExportedValue, hs, hd]
  · simp only [applyPendingImport]
    rcases hres : resolveImport env fileReader c currentFilePath p.sourcePath
        p.importedName buildImportSymbolTable with ⟨r1, c1⟩
    rw [hres] at h
    simp at h
    subst h
    simp [getBinding_setBinding_self]

theorem C8_import_failures_degrade_witness :
    (resolveImport ⟨fun _ => none, fun s => s, fun _ p => p⟩
        ⟨fun _ => false, fun _ => none⟩ [] ("/a.ts") ("./m") ("x")
        buildImportSymbolTable = (none, [])) ∧
    (resolveImport ⟨fun _ => none, fun s => s, fun _ p => p⟩
        ⟨fun _ => true, fun _ => none⟩ [] ("/a.ts") ("./m") ("x")
        buildImportSymbolTable = (none, [])) ∧
    (resolveImport ⟨fun _ => none, fun s => s, fun _ p => p⟩
        ⟨fun _ => true, fun _ => some ("content")⟩ [] ("/a.ts") ("./m") ("x")
        buildImportSymbolTable = (none, [])) ∧
    (getExportedValue [(("a"), .vstr ("z"))] ("x") =
      getBinding [(("a"), .vstr ("z"))] ("x")) ∧
    (getBinding
        (applyPendingImport ⟨fun _ => none, fun s => s, fun _ p => p⟩
          ⟨fun _ => false, fun _ => none⟩ ⟨some ("/a.ts"), true⟩
          ([], []) ⟨("loc"), ("x"), ("./m")⟩).1 ("loc") = some .vunres) := by
  refine ⟨?_, ?_, ?_, ?_, ?_⟩
  · exact (C8_import_failures_degrade ⟨fun _ => none, fun s => s, fun _ p => p⟩
      ⟨fun _ => false, fun _ => none⟩ [] ("/a.ts") ("./m") ("x")
      buildImportSymbolTable).1 (by simp [locateImportFile, importExtensions])
  · exact (C8_import_failures_degrade ⟨fun _ => none, fun s => s, fun _ p => p⟩
      ⟨fun _ => true, fun _ => none⟩ [] ("/a.ts") ("./m") ("x")
      buildImportSymbolTable).2.1 ("./m")
      (by simp [locateImportFile]) (by simp [cacheGet]) rfl
  · exact (C8_import_failures_degrade ⟨fun _ => none, fun s => s, fun _ p => p⟩
      ⟨fun _ => true, fun _ => some ("content")⟩ [] ("/a.ts") ("./m") ("x")
      buildImportSymbolTable).2.2.1 ("./m") ("content")
      (by simp [locateImportFile]) (by simp [cacheGet]) rfl rfl
  · exact (C8_import_failures_degrade ⟨fun _ => none, fun s => s, fun _ p => p⟩
      ⟨fun _ => false, fun _ => none⟩ [] ("/a.ts") ("./m") ("x")
      buildImportSymbolTable).2.2.2.1 (by simp) [(("a"), .vstr ("z"))]
  · exact (C8_import_failures_degrade ⟨fun _ => none, fun s => s, fun _ p => p⟩
      ⟨fun _ => false, fun _ => none⟩ [] ("/a.ts") ("./m") ("x")
      buildImportSymbolTable).2.2.2.2 [] [] ⟨("loc"), ("x"), ("./m")⟩
      (by simp [resolveImport, locateImportFile, importExtensions])

/-- C9: `buildSymbolTable` creates no binding from an export-default
declaration — the traversal treats it exactly like an unhandled node,
only recursing into its children — and a default import looks up the
literal name `default` in the imported file's table, so it resolves to
nothing (hence `Unresolved` at the binding site) unless the imported file
declares a variable literally named `default`. -/
theorem C9_export_default_not_bound (d : Node) (st : BuildState)
    (tbl : SymbolTable) :
    (visit (.exportDefault d) st = visit (.other [d]) st) ∧
    (getExportedValue tbl ("default") = getBinding tbl ("default")) ∧
    (∀ (env : ImportEnv) (fileReader : FileReader) (cache : Cache)
       (currentFilePath importPath path content : String) (ast : Node),
      locateImportFile env fileReader currentFilePath importPath = some path →
      cacheGet cache path = none →
      fileReader.read path = some content →
      env.parse content = some ast →
      getBinding (buildSymbolTableNoFollow ast) ("default") = none →
      (resolveImport env fileReader cache currentFilePath importPath
        ("default") buildImportSymbolTable).1 = none) := by
  refine ⟨?_, by simp [getExportedValue],
    fun env fileReader cache currentFilePath importPath path content ast
      hl hc hr hp hd => ?_⟩
  · simp [visit, visitList, processNode]
  · simp [resolveImport, hl, hc, hr, hp, buildImportSymbolTable,
      getExportedValue, hd]

theorem C9_export_default_not_bound_witness :
    (visit (.exportDefault (.stringLiteral ("v"))) ⟨[], []⟩ =
      visit (.other [(.stringLiteral ("v"))]) ⟨[], []⟩) ∧
    ((resolveImport ⟨fun _ => some (.other []), fun s => s, fun _ p => p⟩
        ⟨fun _ => true, fun _ => some ("export default 1")⟩ []
        ("/a.ts") ("./m") ("default") buildImportSymbolTable).1 = none) := by
  constructor
  · exact (C9_export_default_not_bound (.stringLiteral ("v")) ⟨[], []⟩ []).1
  · exact (C9_export_default_not_bound (.stringLiteral ("v")) ⟨[], []⟩ []).2.2
      ⟨fun _ => some (.other []), fun s => s, fun _ p => p⟩
      ⟨fun _ => true, fun _ => some ("export default 1")⟩ []
      ("/a.ts") ("./m") ("./m") ("export default 1") (.other [])
      (by simp [locateImportFile]) (by simp [cacheGet]) rfl rfl
      (by simp [buildSymbolTableNoFollow, visit, visitList, processNode,
        getBinding])

end Statelint
